import Mathlib

/-!
Verification development for the chat client's conversation store
(the reducer, its derived read accessors, the auto-title helper) and the
minimal markdown parser, modelled faithfully from the JavaScript source.
-/

namespace Chat

/-- Message role, from the JSDoc typedef: 'user' or 'assistant'. -/
inductive Role where
  | user
  | assistant
deriving DecidableEq

/-- Message record: id, role, content, createdAt (all strings but role). -/
structure Message where
  id : String
  role : Role
  content : String
  createdAt : String
deriving DecidableEq

/-- Conversation record: id, title, createdAt, ordered message id list. -/
structure Conversation where
  id : String
  title : String
  createdAt : String
  messageIds : List String
deriving DecidableEq

/-- A JavaScript object used as a string-keyed map, modelled as an
association list; lookups see the first binding for a key and upserts
replace in place or append, which matches object spread semantics. -/
abbrev StrMap (α : Type) := List (String × α)

/-- Lookup of a key, modelling JS `obj[key]` (undefined becomes none). -/
def findKey {α : Type} : StrMap α → String → Option α
  | [], _ => none
  | (k, v) :: rest, key => if key = k then some v else findKey rest key

/-- Insert-or-overwrite of a key, modelling JS spread `\x7b...obj, [key]: v\x7d`. -/
def upsert {α : Type} : StrMap α → String → α → StrMap α
  | [], k, v => [(k, v)]
  | (k', v') :: rest, k, v =>
      if k' = k then (k, v) :: rest else (k', v') :: upsert rest k v

/-- The store state: conversations map, messages map, active id. -/
structure ChatState where
  conversations : StrMap Conversation
  messages : StrMap Message
  activeId : Option String
deriving DecidableEq

/-- initialState from the source: empty maps and null activeId. -/
def initialState : ChatState :=
  { conversations := [], messages := [], activeId := none }

/-- A `Partial<Message>` patch: each field optionally present. -/
structure MessagePatch where
  id? : Option String := none
  role? : Option Role := none
  content? : Option String := none
  createdAt? : Option String := none
deriving DecidableEq

/-- JS object spread merge `\x7b ...existing, ...patch \x7d`: a field present in
the patch overrides the existing field. -/
def applyPatch (existing : Message) (patch : MessagePatch) : Message :=
  { id := patch.id?.getD existing.id
    role := patch.role?.getD existing.role
    content := patch.content?.getD existing.content
    createdAt := patch.createdAt?.getD existing.createdAt }

/-- The closed action vocabulary of the reducer. NEW_CONVERSATION generates
a random fresh id and a timestamp in the source; both are modelled as
parameters of the action (covering every value the generator could emit). -/
inductive Action where
  | newConversation (id : String) (createdAt : String)
  | setActive (id : String)
  | addMessage (conversationId : String) (message : Message)
  | updateMessage (id : String) (patch : MessagePatch)
  | renameConversation (id : String) (title : String)
deriving DecidableEq

/-- The reducer from the source, translated case by case. Missing-key
branches (`if (!conv) return state`) return the state unchanged. -/
def reducer (state : ChatState) (action : Action) : ChatState :=
  match action with
  | .newConversation id createdAt =>
      let conv : Conversation :=
        { id := id, title := "New chat", createdAt := createdAt, messageIds := [] }
      { state with
          conversations := upsert state.conversations id conv,
          activeId := some id }
  | .setActive id => { state with activeId := some id }
  | .addMessage conversationId message =>
      match findKey state.conversations conversationId with
      | none => state
      | some conv =>
          let updatedConv := { conv with messageIds := conv.messageIds ++ [message.id] }
          { state with
              conversations := upsert state.conversations conversationId updatedConv,
              messages := upsert state.messages message.id message }
  | .updateMessage id patch =>
      match findKey state.messages id with
      | none => state
      | some existing =>
          { state with messages := upsert state.messages id (applyPatch existing patch) }
  | .renameConversation id title =>
      match findKey state.conversations id with
      | none => state
      | some conv =>
          { state with conversations := upsert state.conversations id { conv with title := title } }

/-- A dispatch sequence applied from the initial state. -/
def runActions (acts : List Action) : ChatState :=
  acts.foldl reducer initialState

/-- getActiveConversation from the source: `state.activeId ? state.conversations[state.activeId] || null : null`.
JS truthiness makes the empty string behave like an unset id. -/
def getActiveConversation (state : ChatState) : Option Conversation :=
  match state.activeId with
  | none => none
  | some id => if id = "" then none else findKey state.conversations id

/-- getMessagesForConversation from the source: `[]` for a missing
conversation, else map ids through the message map and filter Boolean
(drop unresolved ids); map-then-filter(Boolean) is filterMap. -/
def getMessagesForConversation (state : ChatState) (conversationId : String) : List Message :=
  match findKey state.conversations conversationId with
  | none => []
  | some conv => conv.messageIds.filterMap (fun id => findKey state.messages id)

/-- JS `s.slice(a, b)`: the characters in positions [a, b). -/
def sliceStr (s : String) (a b : Nat) : String :=
  String.mk ((s.data.take b).drop a)

/-- The title expression inside setTitleIfNeeded in ChatView:
`text.slice(0, 40) + (text.length > 40 ? ellipsis : emptystring)`. -/
def computeTitle (text : String) : String :=
  sliceStr text 0 40 ++ (if text.length > 40 then "…" else "")

/-- setTitleIfNeeded from ChatView: look up the active conversation
(re-reading it through `active.id`), and only when its title is still the
sentinel "New chat", dispatch a RENAME_CONVERSATION with the truncated
first-message title; otherwise nothing is dispatched. -/
def setTitleIfNeeded (state : ChatState) (text : String) : ChatState :=
  match getActiveConversation
      { state with activeId := (getActiveConversation state).map Conversation.id } with
  | none => state
  | some conv =>
      if conv.title = "New chat" then
        reducer state (Action.renameConversation conv.id (computeTitle text))
      else state

/-- Render node produced by the markdown parser. -/
inductive MdNode where
  | text (value : String)
  | codeblock (value : String)
  | inlinecode (value : String)
  | bold (value : String)
  | italic (value : String)
  | br
deriving DecidableEq

/-- The backtick character, code point 96. -/
def backtick : Char := Char.ofNat 96

/-- JS `input.split('\n')` on a character list: always at least one
(possibly empty) line, empty trailing line after a final newline. -/
def splitLines : List Char → List (List Char)
  | [] => [[]]
  | c :: cs =>
      if c = '\n' then [] :: splitLines cs
      else
        match splitLines cs with
        | [] => [[c]]
        | l :: ls => (c :: l) :: ls

/-- JS `String.prototype.trim`: strip leading and trailing whitespace. -/
def trimChars (l : List Char) : List Char :=
  ((l.dropWhile Char.isWhitespace).reverse.dropWhile Char.isWhitespace).reverse

/-- JS `s.startsWith(pat)` on character lists. -/
def startsWithL : List Char → List Char → Bool
  | _, [] => true
  | [], _ :: _ => false
  | c :: cs, p :: ps => c = p && startsWithL cs ps

/-- Whether a line opens or closes a fence: `line.trim().startsWith('fence')`
with a three-backtick fence (the same predicate is used to open and close). -/
def isFence (l : List Char) : Bool :=
  startsWithL (trimChars l) [backtick, backtick, backtick]

/-- First index at which the pattern occurs, JS `s.indexOf(pat)` with
none standing for -1. -/
def findIdx : List Char → List Char → Option Nat
  | [], pat => if pat.isEmpty then some 0 else none
  | c :: cs, pat =>
      if startsWithL (c :: cs) pat then some 0
      else (findIdx cs pat).map (fun n => n + 1)

/-- JS `s.indexOf(pat, start)`: search from a start position. -/
def indexOfFrom (s pat : List Char) (start : Nat) : Option Nat :=
  (findIdx (s.drop start) pat).map (fun n => n + start)

/-- Minimum of optional candidate indices, modelling
`Math.min(...[a, b, c].filter(x => x >= 0))` with none for absent. -/
def minOpt : Option Nat → Option Nat → Option Nat
  | none, b => b
  | some a, none => some a
  | some a, some b => some (min a b)

/-- The fenced-block collection loop: gather lines verbatim until a line
passing the fence test; that closing line is consumed and not kept. If no
closing fence exists, every remaining line is absorbed. Returns the block
body and the lines remaining after the (consumed) closing fence. -/
def collectFence : List (List Char) → List (List Char) × List (List Char)
  | [] => ([], [])
  | l :: ls =>
      if isFence l then ([], ls)
      else
        let r := collectFence ls
        (l :: r.1, r.2)

/-- JS `buf.join('\n')` on character-list lines. -/
def joinNL : List (List Char) → List Char
  | [] => []
  | [l] => l
  | l :: l' :: ls => l ++ '\n' :: joinNL (l' :: ls)

/-- The inline scanning loop (`while (rest.length)`) of parseMarkdown,
with explicit fuel; every iteration strictly shortens `rest`, so fuel
`rest.length + 1` makes the fuel-out branch unreachable. Candidate
markers are the backtick, the double asterisk, and the single asterisk;
the earliest one wins, and at a tie the branch order tries the backtick,
then the double asterisk, then the single asterisk. -/
def parseInlineGo : Nat → List Char → List MdNode
  | 0, _ => []
  | fuel + 1, rest =>
      if rest.isEmpty then []
      else
        match minOpt (findIdx rest [backtick])
            (minOpt (findIdx rest ['*', '*']) (findIdx rest ['*'])) with
        | none => [MdNode.text (String.mk rest)]
        | some next =>
            if next > 0 then
              MdNode.text (String.mk (rest.take next)) :: parseInlineGo fuel (rest.drop next)
            else
              if startsWithL rest [backtick] then
                match indexOfFrom rest [backtick] 1 with
                | some e =>
                    if e > 0 then
                      MdNode.inlinecode (String.mk ((rest.take e).drop 1)) ::
                        parseInlineGo fuel (rest.drop (e + 1))
                    else [MdNode.text (String.mk rest)]
                | none => [MdNode.text (String.mk rest)]
              else if startsWithL rest ['*', '*'] then
                match indexOfFrom rest ['*', '*'] 2 with
                | some e =>
                    if e > 0 then
                      MdNode.bold (String.mk ((rest.take e).drop 2)) ::
                        parseInlineGo fuel (rest.drop (e + 2))
                    else [MdNode.text (String.mk rest)]
                | none => [MdNode.text (String.mk rest)]
              else if startsWithL rest ['*'] then
                match indexOfFrom rest ['*'] 1 with
                | some e =>
                    if e > 0 then
                      MdNode.italic (String.mk ((rest.take e).drop 1)) ::
                        parseInlineGo fuel (rest.drop (e + 1))
                    else [MdNode.text (String.mk rest)]
                | none => [MdNode.text (String.mk rest)]
              else [MdNode.text (String.mk rest)]

/-- Inline parse of one line. -/
def parseInline (l : List Char) : List MdNode :=
  parseInlineGo (l.length + 1) l

/-- The outer line loop of parseMarkdown, with fuel (each step consumes at
least the head line, so `lines.length + 1` fuel is always enough). A fence
line emits one codeblock from the collected body (the language tag
after the opening fence is parsed in the source but dropped); any other
line emits its inline nodes followed by a br. -/
def parseLinesGo : Nat → List (List Char) → List MdNode
  | 0, _ => []
  | _ + 1, [] => []
  | fuel + 1, l :: ls =>
      if isFence l then
        MdNode.codeblock (String.mk (joinNL (collectFence ls).1)) ::
          parseLinesGo fuel (collectFence ls).2
      else
        parseInline l ++ (MdNode.br :: parseLinesGo fuel ls)

/-- parseMarkdown from the source: split on newlines, then run the line loop. -/
def parseMarkdown (input : String) : List MdNode :=
  parseLinesGo ((splitLines input.data).length + 1) (splitLines input.data)

/-- Number of bindings a key has in a map. -/
def keyCount {α : Type} : StrMap α → String → Nat
  | [], _ => 0
  | (k', _) :: rest, k => (if k' = k then 1 else 0) + keyCount rest k

theorem findKey_upsert {α : Type} (m : StrMap α) (k key : String) (v : α) :
    findKey (upsert m k v) key = if key = k then some v else findKey m key := by
  induction m with
  | nil => simp [upsert, findKey]
  | cons p rest ih =>
      obtain ⟨k', v'⟩ := p
      by_cases h : k' = k
      · subst h
        simp [upsert, findKey]
        by_cases hk : key = k' <;> simp [hk]
      · by_cases h2 : key = k'
        · subst h2
          simp [upsert, h, findKey, Ne.symm h]
        · simp [upsert, h, findKey, h2, ih]

theorem isSome_findKey_upsert {α : Type} (m : StrMap α) (k key : String) (v : α)
    (h : (findKey m key).isSome = true) :
    (findKey (upsert m k v) key).isSome = true := by
  rw [findKey_upsert]
  by_cases hk : key = k <;> simp [hk, h]

theorem keyCount_upsert {α : Type} (m : StrMap α) (k : String) (v : α) :
    keyCount (upsert m k v) k = max (keyCount m k) 1 := by
  induction m with
  | nil => simp [upsert, keyCount]
  | cons p rest ih =>
      obtain ⟨k', v'⟩ := p
      by_cases h : k' = k
      · subst h
        simp [upsert, keyCount]
      · simp [upsert, h, keyCount, ih]

/-- C2: dispatching AddMessage with an unknown conversation id,
UpdateMessage with an unknown message id, or RenameConversation with an
unknown conversation id, each leaves the state exactly unchanged. -/
theorem noop_on_missing_ids (s : ChatState) (cid : String) (m : Message)
    (mid : String) (p : MessagePatch) (rid : String) (t : String)
    (h1 : findKey s.conversations cid = none)
    (h2 : findKey s.messages mid = none)
    (h3 : findKey s.conversations rid = none) :
    reducer s (Action.addMessage cid m) = s ∧
    reducer s (Action.updateMessage mid p) = s ∧
    reducer s (Action.renameConversation rid t) = s := by
  refine ⟨?_, ?_, ?_⟩ <;> simp [reducer, h1, h2, h3]

theorem noop_on_missing_ids_w :
    reducer initialState (Action.addMessage "c" ⟨"m", Role.user, "x", "t"⟩) = initialState ∧
    reducer initialState (Action.updateMessage "m" {}) = initialState ∧
    reducer initialState (Action.renameConversation "c2" "T") = initialState :=
  noop_on_missing_ids initialState "c" ⟨"m", Role.user, "x", "t"⟩ "m" {} "c2" "T" rfl rfl rfl

/-- C10: MessagesForConversation on a conversation id that is not a key
of the conversations map returns the empty list rather than failing. -/
theorem messages_for_missing_conversation (s : ChatState) (cid : String)
    (h : findKey s.conversations cid = none) :
    getMessagesForConversation s cid = [] := by
  simp [getMessagesForConversation, h]

theorem messages_for_missing_conversation_w :
    getMessagesForConversation initialState "nope" = [] :=
  messages_for_missing_conversation initialState "nope" rfl

/-- C3: the bold/italic example parses to exactly the expected nodes; the
double-asterisk marker wins over the lone asterisk at the same index. -/
theorem markdown_bold_italic_example :
    parseMarkdown "Hello **world**, this is *great*!" =
      [MdNode.text "Hello ", MdNode.bold "world", MdNode.text ", this is ",
       MdNode.italic "great", MdNode.text "!", MdNode.br] := by
  decide

theorem collectFence_no_close (ls : List (List Char))
    (h : ∀ l ∈ ls, isFence l = false) :
    collectFence ls = (ls, []) := by
  induction ls with
  | nil => rfl
  | cons l ls ih =>
      have hl : isFence l = false := h l (by simp)
      have hr : collectFence ls = (ls, []) := ih (fun l' hl' => h l' (by simp [hl']))
      simp [collectFence, hl, hr]

theorem parseLinesGo_nil (fuel : Nat) : parseLinesGo fuel [] = [] := by
  cases fuel <;> rfl

/-- C4: an input whose first line opens a fence that is never closed
parses to exactly one codeblock node holding the remaining lines joined
verbatim, with no trailing br or text nodes and no failure. -/
theorem markdown_unterminated_fence (input : String) (first : List Char)
    (rest : List (List Char))
    (hsplit : splitLines input.data = first :: rest)
    (hfence : isFence first = true)
    (hnone : ∀ l ∈ rest, isFence l = false) :
    parseMarkdown input = [MdNode.codeblock (String.mk (joinNL rest))] := by
  unfold parseMarkdown
  rw [hsplit]
  simp [parseLinesGo, hfence, collectFence_no_close rest hnone, parseLinesGo_nil]

theorem markdown_unterminated_fence_w :
    parseMarkdown "```js\ncode here" = [MdNode.codeblock "code here"] := by
  have h := markdown_unterminated_fence "```js\ncode here" "```js".data
    ["code here".data] (by decide) (by decide) (by decide)
  simpa using h

/-- C8: a 45-character first message yields its first 40 characters plus
the ellipsis marker as title; a message of at most 40 characters is the
title itself, unmodified. -/
theorem title_truncation (t45 t40 : String)
    (h45 : t45.length = 45) (h40 : t40.length ≤ 40) :
    computeTitle t45 = String.mk (t45.data.take 40) ++ "…" ∧
    computeTitle t40 = t40 := by
  constructor
  · simp [computeTitle, sliceStr, h45]
  · cases t40 with
    | mk d =>
        have hd : d.length ≤ 40 := by simpa using h40
        have hlt : ¬ (40 < d.length) := by omega
        simp [computeTitle, sliceStr, List.take_of_length_le hd, String.length, hlt,
          String.append_empty]

theorem title_truncation_w :
    computeTitle (String.mk (List.replicate 45 'a')) =
      String.mk ((String.mk (List.replicate 45 'a')).data.take 40) ++ "…" ∧
    computeTitle (String.mk (List.replicate 40 'a')) =
      String.mk (List.replicate 40 'a') :=
  title_truncation (String.mk (List.replicate 45 'a'))
    (String.mk (List.replicate 40 'a')) (by decide) (by decide)

/-- Referential integrity of message ids: every id in any conversation's
messageIds is a key of the messages map. -/
def MsgRefInv (s : ChatState) : Prop :=
  ∀ cid conv, findKey s.conversations cid = some conv →
    ∀ mid, mid ∈ conv.messageIds → (findKey s.messages mid).isSome = true

theorem reducer_preserves_msgRefInv (s : ChatState) (a : Action)
    (h : MsgRefInv s) : MsgRefInv (reducer s a) := by
  cases a with
  | newConversation id t =>
      intro cid conv hconv mid hmid
      simp only [reducer] at hconv ⊢
      rw [findKey_upsert] at hconv
      by_cases hcid : cid = id
      · simp [hcid] at hconv
        rw [← hconv] at hmid
        simp at hmid
      · simp [hcid] at hconv
        exact h cid conv hconv mid hmid
  | setActive id =>
      intro cid conv hconv mid hmid
      simp only [reducer] at hconv ⊢
      exact h cid conv hconv mid hmid
  | addMessage conversationId message =>
      intro cid conv hconv mid hmid
      cases hfc : findKey s.conversations conversationId with
      | none =>
          simp only [reducer, hfc] at hconv ⊢
          exact h cid conv hconv mid hmid
      | some c =>
          simp only [reducer, hfc] at hconv ⊢
          rw [findKey_upsert] at hconv
          by_cases hcid : cid = conversationId
          · simp [hcid] at hconv
            rw [← hconv] at hmid
            simp at hmid
            rcases hmid with hold | hnew
            · exact isSome_findKey_upsert _ _ _ _ (h conversationId c hfc mid hold)
            · subst hnew
              rw [findKey_upsert]
              simp
          · simp [hcid] at hconv
            exact isSome_findKey_upsert _ _ _ _ (h cid conv hconv mid hmid)
  | updateMessage id patch =>
      intro cid conv hconv mid hmid
      cases hfm : findKey s.messages id with
      | none =>
          simp only [reducer, hfm] at hconv ⊢
          exact h cid conv hconv mid hmid
      | some existing =>
          simp only [reducer, hfm] at hconv ⊢
          exact isSome_findKey_upsert _ _ _ _ (h cid conv hconv mid hmid)
  | renameConversation id title =>
      intro cid conv hconv mid hmid
      cases hfc : findKey s.conversations id with
      | none =>
          simp only [reducer, hfc] at hconv ⊢
          exact h cid conv hconv mid hmid
      | some c =>
          simp only [reducer, hfc] at hconv ⊢
          rw [findKey_upsert] at hconv
          by_cases hcid : cid = id
          · simp [hcid] at hconv
            rw [← hconv] at hmid
            simp at hmid
            exact h id c hfc mid hmid
          · simp [hcid] at hconv
            exact h cid conv hconv mid hmid

/-- C1: after any sequence of the five actions from the initial state,
every message id in any conversation's messageIds is a key of the
messages map. -/
theorem msgRefInv_runActions (acts : List Action) : MsgRefInv (runActions acts) := by
  have hfold : ∀ (l : List Action) (s : ChatState),
      MsgRefInv s → MsgRefInv (l.foldl reducer s) := by
    intro l
    induction l with
    | nil => intro s hs; exact hs
    | cons a as ih =>
        intro s hs
        exact ih _ (reducer_preserves_msgRefInv s a hs)
  refine hfold acts initialState ?_
  intro cid conv hconv
  simp [initialState, findKey] at hconv

theorem msgRefInv_runActions_w :
    (findKey (runActions [Action.newConversation "c1" "t0",
        Action.addMessage "c1" ⟨"m1", Role.user, "hi", "t1"⟩]).messages "m1").isSome
      = true :=
  msgRefInv_runActions [Action.newConversation "c1" "t0",
      Action.addMessage "c1" ⟨"m1", Role.user, "hi", "t1"⟩]
    "c1" ⟨"c1", "New chat", "t0", ["m1"]⟩ (by decide) "m1" (by decide)

/-- Validity of the active pointer: activeId, when set, is a key of the
conversations map. -/
def ActiveInv (s : ChatState) : Prop :=
  ∀ aid, s.activeId = some aid → (findKey s.conversations aid).isSome = true

/-- C5 counterexample: the single action SET_ACTIVE "x" from the initial
state reaches a state whose activeId is set but names no conversation, so
the claimed invariant fails on reachable states. -/
theorem active_dangling_cex :
    ¬ (∀ acts : List Action, ActiveInv (runActions acts)) := by
  intro h
  exact absurd (h [Action.setActive "x"] "x" rfl) (by decide)

/-- Reachability restricted to validated SET_ACTIVE dispatches: a
SET_ACTIVE step is only taken with an id that is currently a key of the
conversations map. -/
inductive ReachableValid : ChatState → Prop where
  | init : ReachableValid initialState
  | stepNew {s : ChatState} (id createdAt : String) :
      ReachableValid s → ReachableValid (reducer s (Action.newConversation id createdAt))
  | stepSetActive {s : ChatState} (id : String) :
      ReachableValid s → (findKey s.conversations id).isSome = true →
      ReachableValid (reducer s (Action.setActive id))
  | stepAdd {s : ChatState} (cid : String) (m : Message) :
      ReachableValid s → ReachableValid (reducer s (Action.addMessage cid m))
  | stepUpdate {s : ChatState} (mid : String) (p : MessagePatch) :
      ReachableValid s → ReachableValid (reducer s (Action.updateMessage mid p))
  | stepRename {s : ChatState} (cid title : String) :
      ReachableValid s → ReachableValid (reducer s (Action.renameConversation cid title))

/-- C5 amended: in every state reachable when each SET_ACTIVE dispatch
targets an existing conversation, activeId, if set, is a key of the
conversations map (the other four actions can never break it). -/
theorem activeInv_of_reachableValid (s : ChatState) (hr : ReachableValid s) :
    ActiveInv s := by
  induction hr with
  | init => intro aid ha; simp [initialState] at ha
  | @stepNew s' id t hr ih =>
      intro aid ha
      simp only [reducer] at ha ⊢
      rw [Option.some_inj] at ha
      subst ha
      rw [findKey_upsert]
      simp
  | @stepSetActive s' id hr hsome ih =>
      intro aid ha
      simp only [reducer] at ha ⊢
      rw [Option.some_inj] at ha
      subst ha
      exact hsome
  | @stepAdd s' cid m hr ih =>
      intro aid ha
      cases hfc : findKey s'.conversations cid with
      | none =>
          simp only [reducer, hfc] at ha ⊢
          exact ih aid ha
      | some c =>
          simp only [reducer, hfc] at ha ⊢
          exact isSome_findKey_upsert _ _ _ _ (ih aid ha)
  | @stepUpdate s' mid p hr ih =>
      intro aid ha
      cases hfm : findKey s'.messages mid with
      | none =>
          simp only [reducer, hfm] at ha ⊢
          exact ih aid ha
      | some existing =>
          simp only [reducer, hfm] at ha ⊢
          exact ih aid ha
  | @stepRename s' cid t hr ih =>
      intro aid ha
      cases hfc : findKey s'.conversations cid with
      | none =>
          simp only [reducer, hfc] at ha ⊢
          exact ih aid ha
      | some c =>
          simp only [reducer, hfc] at ha ⊢
          exact isSome_findKey_upsert _ _ _ _ (ih aid ha)

theorem activeInv_of_reachableValid_w :
    (findKey (reducer (reducer initialState (Action.newConversation "c1" "t0"))
        (Action.setActive "c1")).conversations "c1").isSome = true :=
  activeInv_of_reachableValid _
    (ReachableValid.stepSetActive "c1"
      (ReachableValid.stepNew "c1" "t0" ReachableValid.init) (by decide))
    "c1" rfl

/-- C6 counterexample: UPDATE_MESSAGE merges every field present in the patch,
so a patch carrying a role changes the stored message's role; id, role,
createdAt are not preserved by every UpdateMessage dispatch. -/
theorem update_can_change_role_cex :
    ¬ (∀ (s : ChatState) (mid : String) (p : MessagePatch) (m m' : Message),
        findKey s.messages mid = some m →
        findKey (reducer s (Action.updateMessage mid p)).messages mid = some m' →
        m'.id = m.id ∧ m'.role = m.role ∧ m'.createdAt = m.createdAt) := by
  intro h
  have hm := h
    { conversations := [], messages := [("m1", ⟨"m1", Role.user, "hi", "t"⟩)],
      activeId := none }
    "m1" { role? := some Role.assistant } ⟨"m1", Role.user, "hi", "t"⟩
    ⟨"m1", Role.assistant, "hi", "t"⟩ rfl (by decide)
  exact absurd hm.2.1 (by decide)

/-- C6 amended: an UpdateMessage whose patch carries only a content field
(the streaming use in the source) preserves the message's id, role and
createdAt, changing content alone. -/
theorem update_content_only_preserves_fields (s : ChatState) (mid : String)
    (c : String) (m : Message)
    (h : findKey s.messages mid = some m) :
    findKey (reducer s (Action.updateMessage mid
        { content? := some c })).messages mid = some { m with content := c } := by
  simp [reducer, h, applyPatch, findKey_upsert]

theorem update_content_only_preserves_fields_w :
    findKey (reducer
        { conversations := [], messages := [("m1", ⟨"m1", Role.user, "hi", "t"⟩)],
          activeId := none }
        (Action.updateMessage "m1" { content? := some "hello" })).messages "m1" =
      some ⟨"m1", Role.user, "hello", "t"⟩ :=
  update_content_only_preserves_fields
    { conversations := [], messages := [("m1", ⟨"m1", Role.user, "hi", "t"⟩)],
      activeId := none }
    "m1" "hello" ⟨"m1", Role.user, "hi", "t"⟩ rfl

/-- C7: dispatching the same AddMessage twice appends the message id
twice to the conversation's messageIds while the messages map keeps a
single binding for that id, holding the last dispatched record. -/
theorem addMessage_twice (s : ChatState) (cid : String) (conv : Conversation)
    (m : Message)
    (hc : findKey s.conversations cid = some conv)
    (hcount : keyCount s.messages m.id ≤ 1) :
    findKey (reducer (reducer s (Action.addMessage cid m))
        (Action.addMessage cid m)).conversations cid =
      some { conv with messageIds := conv.messageIds ++ [m.id, m.id] } ∧
    findKey (reducer (reducer s (Action.addMessage cid m))
        (Action.addMessage cid m)).messages m.id = some m ∧
    keyCount (reducer (reducer s (Action.addMessage cid m))
        (Action.addMessage cid m)).messages m.id = 1 := by
  have h1 : reducer s (Action.addMessage cid m) =
      { s with
        conversations := upsert s.conversations cid
          { conv with messageIds := conv.messageIds ++ [m.id] },
        messages := upsert s.messages m.id m } := by
    simp [reducer, hc]
  rw [h1]
  have hc2 : findKey (upsert s.conversations cid
      { conv with messageIds := conv.messageIds ++ [m.id] }) cid =
      some { conv with messageIds := conv.messageIds ++ [m.id] } := by
    rw [findKey_upsert]; simp
  refine ⟨?_, ?_, ?_⟩
  · simp [reducer, hc2, findKey_upsert]
  · simp [reducer, hc2, findKey_upsert]
  · simp [reducer, hc2, keyCount_upsert]
    omega

theorem addMessage_twice_w :
    findKey (reducer (reducer (runActions [Action.newConversation "c1" "t0"])
        (Action.addMessage "c1" ⟨"m1", Role.user, "hi", "t1"⟩))
        (Action.addMessage "c1" ⟨"m1", Role.user, "hi", "t1"⟩)).conversations "c1" =
      some ⟨"c1", "New chat", "t0", ["m1", "m1"]⟩ ∧
    findKey (reducer (reducer (runActions [Action.newConversation "c1" "t0"])
        (Action.addMessage "c1" ⟨"m1", Role.user, "hi", "t1"⟩))
        (Action.addMessage "c1" ⟨"m1", Role.user, "hi", "t1"⟩)).messages "m1" =
      some ⟨"m1", Role.user, "hi", "t1"⟩ ∧
    keyCount (reducer (reducer (runActions [Action.newConversation "c1" "t0"])
        (Action.addMessage "c1" ⟨"m1", Role.user, "hi", "t1"⟩))
        (Action.addMessage "c1" ⟨"m1", Role.user, "hi", "t1"⟩)).messages "m1" = 1 :=
  addMessage_twice (runActions [Action.newConversation "c1" "t0"]) "c1"
    ⟨"c1", "New chat", "t0", []⟩ ⟨"m1", Role.user, "hi", "t1"⟩ (by decide) (by decide)

theorem setTitleIfNeeded_of_renamed (S : ChatState) (aid : String)
    (c : Conversation) (text : String)
    (ha : S.activeId = some aid) (hne : ¬ aid = "")
    (hfk : findKey S.conversations aid = some c) (hid : c.id = aid)
    (ht : ¬ c.title = "New chat") :
    setTitleIfNeeded S text = S := by
  unfold setTitleIfNeeded
  have h1 : getActiveConversation S = some c := by
    simp [getActiveConversation, ha, hne, hfk]
  rw [h1]
  have h2 : getActiveConversation { S with activeId := some c.id } = some c := by
    simp [getActiveConversation, hid, hne, hfk]
  simp only [Option.map_some']
  rw [h2]
  simp [ht]

/-- C9: when the active conversation's title is no longer the sentinel
"New chat", adding a user message and re-running the auto-title step does
not rename it: the conversation keeps its title, only messageIds grows. -/
theorem rename_once_policy (s : ChatState) (aid : String) (conv : Conversation)
    (m : Message) (text : String)
    (ha : s.activeId = some aid) (hne : ¬ aid = "")
    (hc : findKey s.conversations aid = some conv)
    (hid : conv.id = aid)
    (ht : ¬ conv.title = "New chat") :
    findKey (setTitleIfNeeded (reducer s (Action.addMessage aid m)) text).conversations
        aid = some { conv with messageIds := conv.messageIds ++ [m.id] } := by
  have h1 : reducer s (Action.addMessage aid m) =
      { s with
        conversations := upsert s.conversations aid
          { conv with messageIds := conv.messageIds ++ [m.id] },
        messages := upsert s.messages m.id m } := by
    simp [reducer, hc]
  rw [h1]
  have hfc : findKey (upsert s.conversations aid
      { conv with messageIds := conv.messageIds ++ [m.id] }) aid =
      some { conv with messageIds := conv.messageIds ++ [m.id] } := by
    rw [findKey_upsert]; simp
  rw [setTitleIfNeeded_of_renamed
      { s with
        conversations := upsert s.conversations aid
          { conv with messageIds := conv.messageIds ++ [m.id] },
        messages := upsert s.messages m.id m }
      aid { conv with messageIds := conv.messageIds ++ [m.id] } text ha hne hfc hid ht]
  exact hfc

theorem rename_once_policy_w :
    findKey (setTitleIfNeeded
        (reducer (runActions [Action.newConversation "c1" "t0",
            Action.renameConversation "c1" "Custom"])
          (Action.addMessage "c1" ⟨"m1", Role.user, "Hello there", "t1"⟩))
        "Hello there").conversations "c1" =
      some ⟨"c1", "Custom", "t0", ["m1"]⟩ :=
  rename_once_policy
    (runActions [Action.newConversation "c1" "t0",
        Action.renameConversation "c1" "Custom"])
    "c1" ⟨"c1", "Custom", "t0", []⟩ ⟨"m1", Role.user, "Hello there", "t1"⟩
    "Hello there" rfl (by decide) (by decide) rfl (by decide)

end Chat
